import Mathlib

/-!
# starbucks-transaction-export

A shallow embedding of `export-starbucks.go` and the properties of its token
extraction, login, query encoding, date normalisation and CSV export.

Go strings are modelled by `String`; the regular expressions of the program are
modelled by a small backtracking matcher with Go's leftmost-first semantics
(the match a backtracking search finds first, greedy operators preferring the
longer alternative).
-/

namespace StarbucksExport

/-! ## Failures -/

/-- The ways a run of the program aborts: a runtime panic for an index that is
out of range, a runtime panic for a field access through a nil pointer, or
`log.Fatal` with a message. -/
inductive Failure where
  | indexOutOfRange (index length : Nat)
  | nilDereference
  | fatal (msg : String)
  deriving DecidableEq, Repr

deriving instance DecidableEq for Except

/-! ## Regular expressions (package `regexp`) -/

/-- One element of a pattern: a single character of a class, an optional
character of a class (`x?`), or a greedy repetition of a class (`x*`). -/
inductive Item where
  | one (p : Char → Bool)
  | opt (p : Char → Bool)
  | star (p : Char → Bool)

/-- A pattern with one capture group: the elements before the group, the
elements of the group and the elements after it. -/
structure Regexp where
  pre : List Item
  group : List Item
  post : List Item

/-- Greedy repetition of the class `p` followed by the continuation `k`:
consume as many characters as possible and give characters back until the
continuation succeeds. The result is the text consumed by the repetition and
the result of the continuation. -/
def matchStar (p : Char → Bool) (k : List Char → Option (List (List Char))) :
    List Char → Option (List Char × List (List Char))
  | [] => (k []).map (fun m => ([], m))
  | c :: s =>
    if p c then
      match matchStar p k s with
      | some (h, m) => some (c :: h, m)
      | none => (k (c :: s)).map (fun m => ([], m))
    else (k (c :: s)).map (fun m => ([], m))

/-- Match the elements at the start of the input; the result lists the text
consumed by each element, for the first match in backtracking order. -/
def matchItems : List Item → List Char → Option (List (List Char))
  | [], _ => some []
  | Item.one p :: r, s =>
    match s with
    | [] => none
    | c :: t => if p c then (matchItems r t).map (fun m => [c] :: m) else none
  | Item.opt p :: r, s =>
    match s with
    | [] => (matchItems r []).map (fun m => [] :: m)
    | c :: t =>
      if p c then
        match matchItems r t with
        | some m => some ([c] :: m)
        | none => (matchItems r (c :: t)).map (fun m => [] :: m)
      else (matchItems r (c :: t)).map (fun m => [] :: m)
  | Item.star p :: r, s =>
    (matchStar p (matchItems r) s).map (fun hm => hm.1 :: hm.2)

/-- Leftmost match: try every start position from the left. -/
def findFrom (items : List Item) : List Char → Option (List (List Char))
  | [] => matchItems items []
  | c :: s =>
    match matchItems items (c :: s) with
    | some m => some m
    | none => findFrom items s

/-- All elements of a pattern in order. -/
def Regexp.items (re : Regexp) : List Item := re.pre ++ re.group ++ re.post

/-- The text of the whole match and of the capture group, from the texts
consumed by the elements. -/
def submatches (re : Regexp) (m : List (List Char)) : List String :=
  [String.mk m.flatten,
   String.mk ((m.drop re.pre.length).take re.group.length).flatten]

/-- `(*Regexp).FindStringSubmatch`: the text of the leftmost match and of its
capture group, or the empty (nil) slice when there is no match. -/
def FindStringSubmatch (re : Regexp) (s : String) : List String :=
  match findFrom re.items s.data with
  | none => []
  | some m => submatches re m

/-- Elements of a literal text: one element per character. -/
def litItems (l : List Char) : List Item := l.map (fun c => Item.one (fun x => x == c))

/-- A literal piece of a pattern. -/
def lit (s : String) : List Item := litItems s.data

/-- Class `\d`: ASCII decimal digits. -/
def isDigit (c : Char) : Bool := c.isDigit

/-- Class `\s`: tab, line feed, form feed, carriage return, space. -/
def isSpace (c : Char) : Bool :=
  c == '\t' || c == '\n' || c == '\x0c' || c == '\r' || c == ' '

/-- Class `.`: every character except line feed. -/
def isDot (c : Char) : Bool := c != '\n'

/-- `regexp.Compile("/Date\\((\\d+)\\d{3}-0000\\)/")`. -/
def unixDateRegex : Regexp where
  pre := lit "/Date("
  group := [Item.one isDigit, Item.star isDigit]
  post := [Item.one isDigit, Item.one isDigit, Item.one isDigit] ++ lit "-0000)/"

/-- `regexp.Compile("MSRService\\.FormToken\\s?=\\s?\"(.*)\";")`. -/
def formTokenRegex : Regexp where
  pre := lit "MSRService.FormToken" ++ [Item.opt isSpace] ++ lit "=" ++ [Item.opt isSpace] ++ lit "\""
  group := [Item.star isDot]
  post := lit "\";"

/-- `regexp.Compile("MSRService\\.CookieToken\\s?=\\s?\"(.*)\";")`. -/
def cookieTokenRegex : Regexp where
  pre := lit "MSRService.CookieToken" ++ [Item.opt isSpace] ++ lit "=" ++ [Item.opt isSpace] ++ lit "\""
  group := [Item.star isDot]
  post := lit "\";"

/-! ## Numbers (package `strconv`) -/

/-- Errors of the number parsers. -/
inductive NumError where
  | invalid
  | outOfRange
  deriving DecidableEq, Repr

/-- Largest `uint64`. -/
def maxUint64 : Nat := 2 ^ 64 - 1

/-- Value of an ASCII decimal digit. -/
def digitVal (c : Char) : Nat := c.toNat - 48

/-- The digit loop of `strconv.ParseUint(s, 10, 64)`, with the value read so
far: a character that is no digit is a syntax error with value 0, a value that
does not fit in 64 bits is a range error with the largest value. -/
def parseUintLoop : Nat → List Char → Nat × Option NumError
  | n, [] => (n, none)
  | n, c :: s =>
    if !isDigit c then (0, some NumError.invalid)
    else if n ≥ maxUint64 / 10 + 1 then (maxUint64, some NumError.outOfRange)
    else if n * 10 + digitVal c > maxUint64 then (maxUint64, some NumError.outOfRange)
    else parseUintLoop (n * 10 + digitVal c) s

/-- `strconv.ParseUint(s, 10, 64)`. -/
def ParseUint (s : List Char) : Nat × Option NumError :=
  if s = [] then (0, some NumError.invalid) else parseUintLoop 0 s

/-- `strconv.ParseInt(s, 10, 64)`: the value and the error; on a range error
the value is the nearest bound of `int64`, on a syntax error it is 0. -/
def ParseInt (s : String) : Int × Option NumError :=
  match s.data with
  | [] => (0, some NumError.invalid)
  | c :: t =>
    let neg := c == '-'
    let body := if c == '+' || c == '-' then t else c :: t
    let un := ParseUint body
    if un.2 = some NumError.invalid then (0, some NumError.invalid)
    else if !neg && un.1 ≥ 2 ^ 63 then (2 ^ 63 - 1, some NumError.outOfRange)
    else if neg && un.1 > 2 ^ 63 then (-(2 ^ 63), some NumError.outOfRange)
    else (if neg then -(un.1 : Int) else (un.1 : Int), none)

/-- Value of a string of decimal digits. -/
def decimalValue (s : List Char) : Nat := s.foldl (fun n c => n * 10 + digitVal c) 0

/-- `strconv.Itoa`, also the `%v` rendering of an `int`: decimal digits with a
leading minus sign for a negative number. -/
def Itoa (n : Int) : String :=
  if n < 0 then "-" ++ Nat.repr n.natAbs else Nat.repr n.natAbs

/-- A `float64`, by its 64 bits. -/
structure float64 where
  bits : Nat
  deriving DecidableEq, Repr

/-- A `float32`, by its 32 bits. -/
structure float32 where
  bits : Nat
  deriving DecidableEq, Repr

/-! ## Time (package `time`) -/

/-- A time zone (`*time.Location`): the offset in seconds east of UTC that is
in effect at a Unix time. -/
structure Location where
  offset : Int → Int

/-- The zone `time.UTC`. -/
def UTC : Location := ⟨fun _ => 0⟩

/-- The zone `time.FixedZone(_, offset)`. -/
def FixedZone (offset : Int) : Location := ⟨fun _ => offset⟩

/-- Decimal rendering of `x`, zero-padded to `width` digits, a minus sign in
front of a negative number (`appendInt` of package `time`). -/
def appendInt (x : Int) (width : Nat) : String :=
  let digits := Nat.repr x.natAbs
  (if x < 0 then "-" else "") ++ String.mk (List.replicate (width - digits.length) '0') ++ digits

/-- Year, month and day of the proleptic Gregorian calendar for a number of
days since 1970-01-01. -/
def civilFromDays (days : Int) : Int × Int × Int :=
  let z := days + 719468
  let era := z / 146097
  let doe := z - era * 146097
  let yoe := (doe - doe / 1460 + doe / 36524 - doe / 146096) / 365
  let doy := doe - (365 * yoe + yoe / 4 - yoe / 100)
  let mp := (5 * doy + 2) / 153
  let d := doy - (153 * mp + 2) / 5 + 1
  let m := if mp < 10 then mp + 3 else mp - 9
  let y := yoe + era * 400 + (if m ≤ 2 then 1 else 0)
  (y, m, d)

/-- Rendering of the zone offset by the layout element `Z07:00`: `Z` for
offset zero, else sign, hours and minutes. -/
def formatZone (offset : Int) : String :=
  if offset = 0 then "Z"
  else
    let zone := Int.tdiv offset 60
    (if zone < 0 then "-" else "+") ++ appendInt (zone.natAbs / 60 : Nat) 2 ++ ":" ++
      appendInt (zone.natAbs % 60 : Nat) 2

/-- `time.Unix(sec, 0).Format(time.RFC3339)` in a process whose local time zone
is `loc`: `time.Unix` returns a time in the local zone and `Format` renders it
there with the layout `2006-01-02T15:04:05Z07:00`. -/
def timeUnixFormatRFC3339 (loc : Location) (sec : Int) : String :=
  let offset := loc.offset sec
  let t := sec + offset
  let ymd := civilFromDays (t / 86400)
  let rem := t % 86400
  appendInt ymd.1 4 ++ "-" ++ appendInt ymd.2.1 2 ++ "-" ++ appendInt ymd.2.2 2 ++ "T" ++
    appendInt (rem / 3600) 2 ++ ":" ++ appendInt (rem % 3600 / 60) 2 ++ ":" ++
    appendInt (rem % 60) 2 ++ formatZone offset

/-! ## Date normalisation -/

/-- Index expression `xs[i]` on a slice: a runtime panic when `i` is not below
the length. -/
def index (xs : List String) (i : Nat) : Except Failure String :=
  match xs[i]? with
  | some x => Except.ok x
  | none => Except.error (Failure.indexOutOfRange i xs.length)

/-- The first two statements of `formatWeirdUnixTime`: the capture group of the
date pattern, parsed as a base-10 `int64` with the parse error dropped. This is
the number of seconds handed to `time.Unix`. -/
def unixSeconds (unix : String) : Except Failure Int :=
  let submatches := FindStringSubmatch unixDateRegex unix
  match index submatches 1 with
  | Except.error e => Except.error e
  | Except.ok s => Except.ok (ParseInt s).1

/-- `formatWeirdUnixTime` in a process whose local time zone is `loc`. -/
def formatWeirdUnixTime (loc : Location) (unix : String) : Except Failure String :=
  match unixSeconds unix with
  | Except.error e => Except.error e
  | Except.ok sec => Except.ok (timeUnixFormatRFC3339 loc sec)

/-! ## Verification token -/

/-- The pair of tokens read from the login page. -/
structure verificationToken where
  FormToken : String
  CookieToken : String
  deriving DecidableEq, Repr

/-- Method `format`: the value of the `RequestVerificationToken` header. -/
def verificationToken.format (token : verificationToken) : String :=
  token.CookieToken ++ ":" ++ token.FormToken

/-- The token extraction of `getVerificationToken` on the text of the login
page (`bodyString`): the first submatch of each of the two patterns. -/
def getVerificationToken (bodyString : String) : Except Failure verificationToken :=
  let formTokenMatches := FindStringSubmatch formTokenRegex bodyString
  let cookieTokenMatches := FindStringSubmatch cookieTokenRegex bodyString
  match index formTokenMatches 1 with
  | Except.error e => Except.error e
  | Except.ok f =>
    match index cookieTokenMatches 1 with
    | Except.error e => Except.error e
    | Except.ok c => Except.ok { FormToken := f, CookieToken := c }

/-! ## Login -/

/-- The `LoginDataString` form field built by `login`. -/
def loginDataString (email password : String) : String :=
  "Emailr0tn1L" ++ email ++ "L1nt0rPasswordr0tn1L" ++ password ++
    "L1nt0rCaptchaTextr0tn1Lundefined"

/-- Search for `sub` at every position of the text. -/
def containsAt (sub : List Char) : List Char → Bool
  | [] => sub.isPrefixOf []
  | c :: s => sub.isPrefixOf (c :: s) || containsAt sub s

/-- `strings.Contains`. -/
def Contains (s substr : String) : Bool := containsAt substr.data s.data

/-- The JSON value that `login` decodes the answer into. -/
structure loginResponseJson where
  Message : String
  deriving DecidableEq, Repr

/-- An answer of the login endpoint as the HTTP client receives it: the status
code, and the `Message` field of the JSON body (empty when the body has no
such field or is no JSON). -/
structure loginAnswer where
  StatusCode : Nat
  Message : String
  deriving DecidableEq, Repr

/-- `ReceiveSuccess(&loginResponse)` of package `sling`, for the outcome of the
HTTP exchange (`none` when the request could not be built or sent): the
response, nil without an answer, and the value of `loginResponse` afterwards.
Only an answer with a 2xx status is decoded into `loginResponse`; otherwise it
keeps its zero value. The error that `ReceiveSuccess` also returns is dropped
by the caller. -/
def ReceiveSuccess (exchange : Option loginAnswer) : Option loginAnswer × loginResponseJson :=
  match exchange with
  | none => (none, { Message := "" })
  | some answer =>
    if 200 ≤ answer.StatusCode ∧ answer.StatusCode ≤ 299 then
      (some answer, { Message := answer.Message })
    else (some answer, { Message := "" })

/-- `login`; `post header form` is the outcome of the POST to the login
endpoint with the `RequestVerificationToken` header and the `LoginDataString`
form field. With a nil response `defer response.Body.Close()` panics;
otherwise the decoded message decides. -/
def login (post : String → String → Option loginAnswer) (token : verificationToken)
    (email password : String) : Except Failure Unit :=
  let received := ReceiveSuccess (post token.format (loginDataString email password))
  match received.1 with
  | none => Except.error Failure.nilDereference
  | some _ =>
    if Contains received.2.Message "Login False" then
      Except.error (Failure.fatal "Could not login!")
    else Except.ok ()

/-! ## Cards and transactions -/

/-- A card record of the `LoadAllCardsData` response. -/
structure card where
  Number : String
  TransferNumber : String
  Active : Bool
  Amount : float32
  Stars : Int
  Currency : String
  DataStringSeparator : String
  PropertyValueStringSeparator : String
  deriving DecidableEq, Repr

/-- The `LoadAllCardsData` response. -/
structure loadAllCardsDataResponse where
  Cards : List card

/-- A transaction record of the `TransactionDetail` response. -/
structure transaction where
  Id : Int
  Category : String
  MoneyAmount : float64
  MoneyBalance : float64
  StarAmount : Int
  StarBalance : Int
  DateTimeUnix : String
  Description : String
  Points : Int
  LocationId : Int
  LocationName : String
  CheckNumber : String
  Currency : String
  DataStringSeparator : String
  PropertyValueStringSeparator : String
  deriving DecidableEq, Repr

/-- The `TransactionDetail` response. -/
structure transactionDetailResponse where
  Transactions : List transaction

/-- `buildTransactionSearchDataString`. -/
def buildTransactionSearchDataString (card : card) (page pageSize : Int) : String :=
  "page" ++ card.PropertyValueStringSeparator ++ Itoa page ++ card.DataStringSeparator ++
    "page_size" ++ card.PropertyValueStringSeparator ++ Itoa pageSize

/-! ## CSV -/

/-- The rows handed to the CSV writer so far. -/
abbrev Writer := List (List String)

/-- Names of the fields of `transaction` in declaration order, as reflection
lists them. -/
def transactionFieldNames : List String :=
  ["Id", "Category", "MoneyAmount", "MoneyBalance", "StarAmount", "StarBalance",
   "DateTimeUnix", "Description", "Points", "LocationId", "LocationName", "CheckNumber",
   "Currency", "DataStringSeparator", "PropertyValueStringSeparator"]

/-- `writeCsvHeader`: a slice of `NumField()+1` names, the first `CardNumber`,
the others filled by the loop over the fields; all but the last two are
written. -/
def writeCsvHeader (writer : Writer) : Writer :=
  let numField := transactionFieldNames.length
  let fieldNames := (List.range numField).foldl
    (fun names i => names.set (i + 1) (transactionFieldNames.getD i ""))
    ((List.replicate (numField + 1) "").set 0 "CardNumber")
  writer ++ [fieldNames.take (fieldNames.length - 2)]

/-- `writeTransaction` in a process whose local time zone is `loc`;
`FormatFloat x` stands for `strconv.FormatFloat(x, 'f', -1, 64)`. -/
def writeTransaction (loc : Location) (FormatFloat : float64 → String) (writer : Writer)
    (card : card) (transaction : transaction) : Except Failure Writer :=
  let record := List.replicate 14 ""
  let record := record.set 0 card.Number
  let record := record.set 1 (Itoa transaction.Id)
  let record := record.set 2 transaction.Category
  let record := record.set 3 (FormatFloat transaction.MoneyAmount)
  let record := record.set 4 (FormatFloat transaction.MoneyBalance)
  let record := record.set 5 (Itoa transaction.StarAmount)
  let record := record.set 6 (Itoa transaction.StarBalance)
  match formatWeirdUnixTime loc transaction.DateTimeUnix with
  | Except.error e => Except.error e
  | Except.ok dateTime =>
    let record := record.set 7 dateTime
    let record := record.set 8 transaction.Description
    let record := record.set 9 (Itoa transaction.Points)
    let record := record.set 10 (Itoa transaction.LocationId)
    let record := record.set 11 transaction.LocationName
    let record := record.set 12 transaction.CheckNumber
    let record := record.set 13 transaction.Currency
    Except.ok (writer ++ [record])

/-! ## The export loop of `main` -/

/-- The inner loop of `main`: one `writeTransaction` per transaction of the
card, in order. -/
def writeTransactions (loc : Location) (FormatFloat : float64 → String) (card : card) :
    List transaction → Writer → Except Failure Writer
  | [], writer => Except.ok writer
  | transaction :: rest, writer =>
    match writeTransaction loc FormatFloat writer card transaction with
    | Except.error e => Except.error e
    | Except.ok writer => writeTransactions loc FormatFloat card rest writer

/-- The outer loop of `main`: for each card, fetch its transactions and write
them. `getAllTransactionsForCard` is the response of the server for a card. -/
def writeCards (loc : Location) (FormatFloat : float64 → String)
    (getAllTransactionsForCard : card → transactionDetailResponse) :
    List card → Writer → Except Failure Writer
  | [], writer => Except.ok writer
  | card :: rest, writer =>
    match writeTransactions loc FormatFloat card
        (getAllTransactionsForCard card).Transactions writer with
    | Except.error e => Except.error e
    | Except.ok writer => writeCards loc FormatFloat getAllTransactionsForCard rest writer

/-- The export of `main` after login: the header, then the rows of every card
of the cards response. The result is the list of rows written. -/
def mainExport (loc : Location) (FormatFloat : float64 → String)
    (cardsResponse : loadAllCardsDataResponse)
    (getAllTransactionsForCard : card → transactionDetailResponse) : Except Failure Writer :=
  writeCards loc FormatFloat getAllTransactionsForCard cardsResponse.Cards (writeCsvHeader [])

/-! ## Notions used to state the properties

The definitions below are not part of the program: they name parts of the
patterns for the proofs, and they say in the words of the specification what a
wrapped date, the header row and the data row of a transaction are, to be
compared with what the program computes. -/

/-- The elements of the date pattern after the repetition: three digits and
the literal `-0000)/`. -/
def dateTailItems : List Item :=
  [Item.one isDigit, Item.one isDigit, Item.one isDigit] ++ lit "-0000)/"

/-- The elements of a token pattern for the name `name` of the assigned
variable: `name\s?=\s?"(.*)";`. -/
def tokenItems (name : List Char) : List Item :=
  litItems name ++ (Item.opt isSpace :: Item.one (fun x => x == '=') :: Item.opt isSpace ::
    Item.one (fun x => x == '"') :: Item.star isDot :: litItems ['"', ';'])

/-- A text contains a wrapped date: `/Date(`, then at least four ASCII decimal
digits, then `-0000)/`, anywhere in the text. -/
def HasWrappedDate (raw : String) : Prop :=
  ∃ pre d post : List Char,
    raw.data = pre ++ (("/Date(" : String).data ++ (d ++ (("-0000)/" : String).data ++ post))) ∧
      4 ≤ d.length ∧ ∀ c ∈ d, isDigit c = true

/-- The header row of the export as the specification lists it. -/
def headerRow : List String :=
  ["CardNumber", "Id", "Category", "MoneyAmount", "MoneyBalance", "StarAmount", "StarBalance",
   "DateTimeUnix", "Description", "Points", "LocationId", "LocationName", "CheckNumber",
   "Currency"]

/-- The rendering of the field that a column name stands for, for a card, a
transaction and the normalised timestamp of the transaction: the card number
for `CardNumber`, the timestamp for `DateTimeUnix`, else the transaction field
of that name. -/
def renderColumn (FormatFloat : float64 → String) (card : card) (transaction : transaction)
    (dateTime : String) (name : String) : String :=
  if name = "CardNumber" then card.Number
  else if name = "Id" then Itoa transaction.Id
  else if name = "Category" then transaction.Category
  else if name = "MoneyAmount" then FormatFloat transaction.MoneyAmount
  else if name = "MoneyBalance" then FormatFloat transaction.MoneyBalance
  else if name = "StarAmount" then Itoa transaction.StarAmount
  else if name = "StarBalance" then Itoa transaction.StarBalance
  else if name = "DateTimeUnix" then dateTime
  else if name = "Description" then transaction.Description
  else if name = "Points" then Itoa transaction.Points
  else if name = "LocationId" then Itoa transaction.LocationId
  else if name = "LocationName" then transaction.LocationName
  else if name = "CheckNumber" then transaction.CheckNumber
  else if name = "Currency" then transaction.Currency
  else ""

/-- The data row of a transaction of a card: the rendering of every column of
the header row. -/
def dataRow (FormatFloat : float64 → String) (card : card) (transaction : transaction)
    (dateTime : String) : List String :=
  headerRow.map (renderColumn FormatFloat card transaction dateTime)

/-- The transactions of the cards, each with its card, grouped by card in the
order of the cards. -/
def cardTransactions (getAllTransactionsForCard : card → transactionDetailResponse)
    (cards : List card) : List (card × transaction) :=
  cards.flatMap (fun c => (getAllTransactionsForCard c).Transactions.map (fun t => (c, t)))

/-- A row is the data row of a transaction of a card, with the normalised
timestamp of the transaction in the date column. -/
def IsRowOf (loc : Location) (FormatFloat : float64 → String) (ct : card × transaction)
    (row : List String) : Prop :=
  ∃ dateTime, formatWeirdUnixTime loc ct.2.DateTimeUnix = Except.ok dateTime ∧
    row = dataRow FormatFloat ct.1 ct.2 dateTime

/-- A transaction for the examples. -/
def sampleTransaction : transaction :=
  { Id := 7, Category := "Purchase", MoneyAmount := ⟨0⟩, MoneyBalance := ⟨0⟩, StarAmount := 1,
    StarBalance := 5, DateTimeUnix := "/Date(1609459200000-0000)/", Description := "Coffee",
    Points := 0, LocationId := 12, LocationName := "Bern", CheckNumber := "42",
    Currency := "CHF", DataStringSeparator := "L1nt0r",
    PropertyValueStringSeparator := "r0tn1L" }

/-- A card with an empty property separator and the data separator
`page_size1page_size1`. -/
def collisionCardA : card :=
  { Number := "1", TransferNumber := "", Active := true, Amount := ⟨0⟩, Stars := 0,
    Currency := "CHF", DataStringSeparator := "page_size1page_size1",
    PropertyValueStringSeparator := "" }

/-- A card with the property separator `1page_size` and an empty data
separator. -/
def collisionCardB : card :=
  { Number := "2", TransferNumber := "", Active := true, Amount := ⟨0⟩, Stars := 0,
    Currency := "CHF", DataStringSeparator := "",
    PropertyValueStringSeparator := "1page_size" }

/-! ## Lemmas on the matcher -/

theorem matchStar_none (p : Char → Bool) (k : List Char → Option (List (List Char))) :
    ∀ s : List Char,
      (∀ x y, s = x ++ y → (∀ c ∈ x, p c = true) → k y = none) → matchStar p k s = none
  | [], h => by
    have h0 : k [] = none := h [] [] rfl (by simp)
    simp [matchStar, h0]
  | c :: s, h => by
    have h0 : k (c :: s) = none := h [] (c :: s) rfl (by simp)
    by_cases hc : p c = true
    · have ih : matchStar p k s = none := by
        apply matchStar_none p k s
        intro x y hxy hx
        apply h (c :: x) y (by simp [hxy])
        intro a ha
        rcases List.mem_cons.1 ha with rfl | ha
        · exact hc
        · exact hx a ha
      simp [matchStar, hc, ih, h0]
    · simp [matchStar, hc, h0]

theorem matchStar_greedy (p : Char → Bool) (k : List Char → Option (List (List Char)))
    (b : List Char) (m : List (List Char)) (hk : k b = some m)
    (hlong : ∀ x y, b = x ++ y → x ≠ [] → (∀ c ∈ x, p c = true) → k y = none) :
    ∀ a : List Char, (∀ c ∈ a, p c = true) → matchStar p k (a ++ b) = some (a, m)
  | [], _ => by
    cases b with
    | nil => simp [matchStar, hk]
    | cons c s =>
      by_cases hc : p c = true
      · have hn : matchStar p k s = none := by
          apply matchStar_none
          intro x y hxy hx
          apply hlong (c :: x) y (by simp [hxy]) (by simp)
          intro a ha
          rcases List.mem_cons.1 ha with rfl | ha
          · exact hc
          · exact hx a ha
        simp [matchStar, hc, hn, hk]
      · simp [matchStar, hc, hk]
  | c :: a, ha => by
    have hc : p c = true := ha c (by simp)
    have ih := matchStar_greedy p k b m hk hlong a (fun x hx => ha x (by simp [hx]))
    simp [matchStar, hc, ih]

theorem matchItems_one (p : Char → Bool) (r : List Item) (c : Char) (t : List Char)
    (h : p c = true) :
    matchItems (Item.one p :: r) (c :: t) = (matchItems r t).map (fun m => [c] :: m) := by
  simp [matchItems, h]

theorem matchItems_star (p : Char → Bool) (r : List Item) (s : List Char) :
    matchItems (Item.star p :: r) s =
      (matchStar p (matchItems r) s).map (fun hm => hm.1 :: hm.2) := by
  cases s <;> simp [matchItems]

theorem matchItems_litItems (r : List Item) (s : List Char) :
    ∀ l : List Char, matchItems (litItems l ++ r) (l ++ s) =
      (matchItems r s).map (fun m => l.map (fun c => [c]) ++ m)
  | [] => by simp [litItems]
  | c :: l => by
    have ih := matchItems_litItems r s l
    simp only [litItems] at ih
    simp [litItems, matchItems, ih, Option.map_map, Function.comp_def]

theorem matchItems_litItems_starts (r : List Item) :
    ∀ (l s : List Char) (m : List (List Char)),
      matchItems (litItems l ++ r) s = some m → l <+: s
  | [], s, _, _ => List.nil_prefix
  | c :: l, [], m, h => by simp [litItems, matchItems] at h
  | c :: l, d :: s, m, h => by
    by_cases hcd : d = c
    · subst hcd
      simp only [litItems, List.map_cons, List.cons_append, matchItems, beq_self_eq_true,
        if_true, Option.map_eq_some'] at h
      obtain ⟨m1, hm1, _⟩ := h
      have := matchItems_litItems_starts r l s m1 hm1
      exact (List.cons_prefix_cons).2 ⟨rfl, this⟩
    · simp [litItems, matchItems, hcd] at h

theorem findFrom_of_match (items : List Item) (s : List Char) (m : List (List Char))
    (h : matchItems items s = some m) : findFrom items s = some m := by
  cases s <;> simp [findFrom, h]

theorem flatten_map_singleton (l : List Char) : (l.map (fun c => [c])).flatten = l := by
  induction l with
  | nil => rfl
  | cons c l ih => simp [ih]

/-! ## Lemmas on numbers -/

theorem digitVal_le (c : Char) (h : isDigit c = true) : digitVal c ≤ 9 := by
  simp only [isDigit, Char.isDigit, Bool.and_eq_true, decide_eq_true_eq] at h
  have h2 : c.val.toNat ≤ 57 := h.2
  simp only [digitVal, Char.toNat]
  omega

theorem foldl_value_ge (s : List Char) :
    ∀ n : Nat, n ≤ s.foldl (fun n c => n * 10 + digitVal c) n := by
  induction s with
  | nil => intro n; simp
  | cons c s ih =>
    intro n
    have := ih (n * 10 + digitVal c)
    simp only [List.foldl_cons]
    omega

theorem foldl_value_eq (s : List Char) :
    ∀ n : Nat, s.foldl (fun n c => n * 10 + digitVal c) n =
      n * 10 ^ s.length + decimalValue s := by
  induction s with
  | nil => intro n; simp [decimalValue]
  | cons c s ih =>
    intro n
    simp only [List.foldl_cons, decimalValue, List.length_cons]
    rw [ih (n * 10 + digitVal c), ih (0 * 10 + digitVal c)]
    rw [pow_succ]
    ring

theorem decimalValue_lt (s : List Char) (h : ∀ c ∈ s, isDigit c = true) :
    decimalValue s < 10 ^ s.length := by
  induction s with
  | nil => simp [decimalValue]
  | cons c s ih =>
    have hc := digitVal_le c (h c (by simp))
    have hs := ih (fun x hx => h x (by simp [hx]))
    simp only [decimalValue, List.foldl_cons, List.length_cons]
    rw [foldl_value_eq]
    rw [pow_succ]
    have hp : 0 < 10 ^ s.length := by positivity
    nlinarith

theorem decimalValue_append (a b : List Char) :
    decimalValue (a ++ b) = decimalValue a * 10 ^ b.length + decimalValue b := by
  simp only [decimalValue, List.foldl_append]
  rw [foldl_value_eq b]
  rfl

theorem parseUintLoop_digits (s : List Char) :
    ∀ n : Nat, (∀ c ∈ s, isDigit c = true) →
      s.foldl (fun n c => n * 10 + digitVal c) n ≤ maxUint64 →
      parseUintLoop n s = (s.foldl (fun n c => n * 10 + digitVal c) n, none) := by
  induction s with
  | nil => intro n _ _; rfl
  | cons c s ih =>
    intro n hd hv
    have hc : isDigit c = true := hd c (by simp)
    have hmono := foldl_value_ge s (n * 10 + digitVal c)
    simp only [List.foldl_cons] at hv
    have h1 : ¬ (n ≥ maxUint64 / 10 + 1) := by
      intro hge
      simp only [maxUint64] at hge hv
      omega
    have h2 : ¬ (n * 10 + digitVal c > maxUint64) := by omega
    simp only [parseUintLoop, hc, Bool.not_true, Bool.false_eq_true, if_false, h1, h2,
      List.foldl_cons]
    exact ih _ (fun x hx => hd x (by simp [hx])) hv

theorem ParseInt_digits (s : String) (hne : s.data ≠ []) (hd : ∀ c ∈ s.data, isDigit c = true)
    (hv : decimalValue s.data < 2 ^ 63) : ParseInt s = (((decimalValue s.data : Nat) : Int), none) := by
  obtain ⟨l⟩ := s
  cases l with
  | nil => exact absurd rfl hne
  | cons c t =>
    have hc : isDigit c = true := hd c (by simp)
    have hplus : (c == '+') = false := by
      rw [beq_eq_false_iff_ne]; rintro rfl; exact absurd hc (by decide)
    have hminus : (c == '-') = false := by
      rw [beq_eq_false_iff_ne]; rintro rfl; exact absurd hc (by decide)
    have hloop := parseUintLoop_digits (c :: t) 0 hd (by
      have : decimalValue (c :: t) < 2 ^ 63 := hv
      simp only [decimalValue, maxUint64] at this ⊢
      omega)
    have hval : (c :: t).foldl (fun n c => n * 10 + digitVal c) 0 = decimalValue (c :: t) := rfl
    rw [hval] at hloop
    have hv2 : ¬ (decimalValue (c :: t) ≥ 2 ^ 63) := by
      have : decimalValue (c :: t) < 2 ^ 63 := hv
      omega
    simp only [ParseInt, hplus, hminus, Bool.or_self, Bool.false_eq_true, if_false, ParseUint,
      List.cons_ne_nil, hloop, Bool.not_false, Bool.true_and, decide_eq_true_eq, hv2,
      Bool.false_and]
    rw [if_neg (by simp)]

/-! ## The date pattern -/

theorem dateSuffix_data : ("-0000)/" : String).data = ['-', '0', '0', '0', '0', ')', '/'] := rfl

theorem dateOpen_data : ("/Date(" : String).data = ['/', 'D', 'a', 't', 'e', '('] := rfl

theorem isDigit_minus : isDigit '-' = false := by decide

theorem unixDateRegex_items :
    unixDateRegex.items =
      litItems ("/Date(" : String).data ++ (Item.one isDigit :: Item.star isDigit :: dateTailItems) := by
  simp [Regexp.items, unixDateRegex, lit, dateTailItems]

theorem dateTail_match (x y z : Char) (rest : List Char) (hx : isDigit x = true)
    (hy : isDigit y = true) (hz : isDigit z = true) :
    matchItems dateTailItems (x :: y :: z :: (("-0000)/" : String).data ++ rest)) =
      some ([[x], [y], [z]] ++ (("-0000)/" : String).data.map (fun c => [c]))) := by
  have h := matchItems_litItems [] rest ("-0000)/" : String).data
  simp only [List.append_nil] at h
  simp only [dateTailItems, lit, List.cons_append, List.nil_append, matchItems, hx, hy, hz,
    if_true, h, Option.map_some', Option.map_map]
  simp

theorem dateTail_short (x y z : Char) (rest : List Char)
    (hy : isDigit y = true) (hz : isDigit z = true) (u v : List Char)
    (huv : x :: y :: z :: (("-0000)/" : String).data ++ rest) = u ++ v) (hu : u ≠ [])
    (hdig : ∀ c ∈ u, isDigit c = true) : matchItems dateTailItems v = none := by
  rw [dateSuffix_data] at huv
  rcases u with _ | ⟨c1, _ | ⟨c2, _ | ⟨c3, _ | ⟨c4, u⟩⟩⟩⟩
  · exact absurd rfl hu
  · simp only [List.cons_append, List.nil_append, List.cons.injEq] at huv
    obtain ⟨_, rfl⟩ := huv
    simp [dateTailItems, matchItems, hy, hz, isDigit_minus]
  · simp only [List.cons_append, List.nil_append, List.cons.injEq] at huv
    obtain ⟨_, _, rfl⟩ := huv
    simp [dateTailItems, matchItems, hz, isDigit_minus]
  · simp only [List.cons_append, List.nil_append, List.cons.injEq] at huv
    obtain ⟨_, _, _, rfl⟩ := huv
    simp [dateTailItems, matchItems, isDigit_minus]
  · simp only [List.cons_append, List.cons.injEq] at huv
    obtain ⟨_, _, _, h4, _⟩ := huv
    have := hdig c4 (by simp)
    rw [← h4, isDigit_minus] at this
    exact absurd this (by simp)

/-- The date pattern at the start of a text `/Date(` digits `-0000)/`: the
repetition takes all digits but the last three. -/
theorem matchItems_date (c0 : Char) (a : List Char) (x y z : Char) (rest : List Char)
    (hc0 : isDigit c0 = true) (ha : ∀ c ∈ a, isDigit c = true) (hx : isDigit x = true)
    (hy : isDigit y = true) (hz : isDigit z = true) :
    matchItems unixDateRegex.items
        (("/Date(" : String).data ++
          (c0 :: (a ++ (x :: y :: z :: (("-0000)/" : String).data ++ rest))))) =
      some ((("/Date(" : String).data.map (fun c => [c])) ++
        ([c0] :: a :: ([[x], [y], [z]] ++ (("-0000)/" : String).data.map (fun c => [c]))))) := by
  rw [unixDateRegex_items, matchItems_litItems]
  have hstar := matchStar_greedy isDigit (matchItems dateTailItems) _ _
    (dateTail_match x y z rest hx hy hz)
    (fun u v huv hu hdig => dateTail_short x y z rest hy hz u v huv hu hdig) a ha
  rw [matchItems_one _ _ _ _ hc0, matchItems_star, hstar]
  rfl

theorem digits_split (d : List Char) (hlen : 4 ≤ d.length) :
    ∃ c0 a x y z, d = c0 :: (a ++ [x, y, z]) ∧ d.take (d.length - 3) = c0 :: a := by
  have hsplit : d = d.take (d.length - 3) ++ d.drop (d.length - 3) := (List.take_append_drop _ _).symm
  have h1 : (d.take (d.length - 3)).length = d.length - 3 := by simp
  have h2 : (d.drop (d.length - 3)).length = 3 := by simp; omega
  generalize d.take (d.length - 3) = t at hsplit h1
  generalize d.drop (d.length - 3) = l at hsplit h2
  rcases t with _ | ⟨c0, a⟩
  · simp at h1; omega
  rcases l with _ | ⟨x, _ | ⟨y, _ | ⟨z, _ | ⟨w, l⟩⟩⟩⟩ <;> simp at h2
  exact ⟨c0, a, x, y, z, by simpa using hsplit, rfl⟩

theorem findFrom_date (c0 : Char) (a : List Char) (x y z : Char)
    (hc0 : isDigit c0 = true) (ha : ∀ c ∈ a, isDigit c = true) (hx : isDigit x = true)
    (hy : isDigit y = true) (hz : isDigit z = true) :
    FindStringSubmatch unixDateRegex
        ("/Date(" ++ String.mk (c0 :: (a ++ [x, y, z])) ++ "-0000)/") =
      ["/Date(" ++ String.mk (c0 :: (a ++ [x, y, z])) ++ "-0000)/", String.mk (c0 :: a)] := by
  have hm := matchItems_date c0 a x y z [] hc0 ha hx hy hz
  have hdata : ("/Date(" ++ String.mk (c0 :: (a ++ [x, y, z])) ++ "-0000)/").data =
      ("/Date(" : String).data ++
          (c0 :: (a ++ (x :: y :: z :: (("-0000)/" : String).data ++ [])))) := by
    simp [String.data_append]
  rw [← hdata] at hm
  have hfind := findFrom_of_match _ _ _ hm
  simp only [FindStringSubmatch, hfind, submatches]
  congr 1
  · apply String.ext
    rw [hdata]
    simp [flatten_map_singleton, dateOpen_data, dateSuffix_data]
  · simp [unixDateRegex, lit, litItems, dateOpen_data]

/-- C1: for a raw date `/Date(d-0000)/`, with `d` at least four ASCII decimal
digits whose value without the last three digits fits in an `int64`, the date
pattern matches, the capture group is `d` without its last three digits, and
the seconds handed to the time conversion are `value(d) / 1000` rounded down. -/
theorem unixSeconds_eq_div_1000 (d : String) (hdig : ∀ c ∈ d.data, isDigit c = true)
    (hlen : 4 ≤ d.length) (hfit : decimalValue (d.data.take (d.length - 3)) < 2 ^ 63) :
    FindStringSubmatch unixDateRegex ("/Date(" ++ d ++ "-0000)/") =
        ["/Date(" ++ d ++ "-0000)/", String.mk (d.data.take (d.length - 3))] ∧
      unixSeconds ("/Date(" ++ d ++ "-0000)/") =
        Except.ok (((decimalValue d.data / 1000 : Nat) : Int)) := by
  obtain ⟨l⟩ := d
  have hlen2 : 4 ≤ l.length := hlen
  obtain ⟨c0, a, x, y, z, hl, htake⟩ := digits_split l hlen2
  have hlen3 : (String.mk l).length = l.length := rfl
  simp only [hlen3] at hfit ⊢
  have hdig2 : ∀ c ∈ l, isDigit c = true := hdig
  rw [htake] at hfit ⊢
  subst hl
  have hc0 : isDigit c0 = true := hdig2 c0 (by simp)
  have ha : ∀ c ∈ a, isDigit c = true := fun c hc => hdig2 c (by simp [hc])
  have hx : isDigit x = true := hdig2 x (by simp)
  have hy : isDigit y = true := hdig2 y (by simp)
  have hz : isDigit z = true := hdig2 z (by simp)
  have hfind := findFrom_date c0 a x y z hc0 ha hx hy hz
  refine ⟨hfind, ?_⟩
  have hparse := ParseInt_digits (String.mk (c0 :: a)) (by simp)
    (by
      intro c hc
      rcases List.mem_cons.1 hc with rfl | hc
      · exact hc0
      · exact ha c hc) hfit
  have hval : decimalValue (c0 :: (a ++ [x, y, z])) / 1000 = decimalValue (c0 :: a) := by
    have happ := decimalValue_append (c0 :: a) [x, y, z]
    have hlt := decimalValue_lt [x, y, z] (by
      intro c hc
      simp only [List.mem_cons, List.mem_singleton, List.not_mem_nil, or_false] at hc
      rcases hc with rfl | rfl | rfl
      · exact hx
      · exact hy
      · exact hz)
    simp only [List.cons_append] at happ
    rw [happ]
    simp only [List.length_cons, List.length_nil] at hlt ⊢
    omega
  simp only [unixSeconds, hfind, index, List.getElem?_cons_succ, List.getElem?_cons_zero, hparse,
    hval]

/-- Instance of C1 for `d = 1609459200000`. -/
theorem unixSeconds_eq_div_1000_witness :
    FindStringSubmatch unixDateRegex ("/Date(" ++ "1609459200000" ++ "-0000)/") =
        ["/Date(" ++ "1609459200000" ++ "-0000)/",
          String.mk (("1609459200000" : String).data.take (("1609459200000" : String).length - 3))] ∧
      unixSeconds ("/Date(" ++ "1609459200000" ++ "-0000)/") =
        Except.ok (((decimalValue ("1609459200000" : String).data / 1000 : Nat) : Int)) :=
  unixSeconds_eq_div_1000 "1609459200000" (by decide) (by decide) (by decide)

/-! ## Which texts the date pattern matches -/

theorem matchItems_litItems_inv (r : List Item) (l s : List Char) (m : List (List Char))
    (h : matchItems (litItems l ++ r) s = some m) :
    ∃ t m', s = l ++ t ∧ matchItems r t = some m' := by
  obtain ⟨t, rfl⟩ := matchItems_litItems_starts r l s m h
  rw [matchItems_litItems] at h
  cases hr : matchItems r t with
  | none => rw [hr] at h; simp at h
  | some m' => exact ⟨t, m', rfl, hr⟩

theorem matchItems_one_inv (p : Char → Bool) (r : List Item) (s : List Char)
    (m : List (List Char)) (h : matchItems (Item.one p :: r) s = some m) :
    ∃ c t m', s = c :: t ∧ p c = true ∧ matchItems r t = some m' := by
  cases s with
  | nil => simp [matchItems] at h
  | cons c t =>
    by_cases hp : p c = true
    · rw [matchItems_one p r c t hp] at h
      cases hr : matchItems r t with
      | none => rw [hr] at h; simp at h
      | some m' => exact ⟨c, t, m', rfl, hp, hr⟩
    · simp [matchItems, hp] at h

theorem matchStar_inv (p : Char → Bool) (k : List Char → Option (List (List Char))) :
    ∀ (s h : List Char) (m : List (List Char)), matchStar p k s = some (h, m) →
      ∃ b, s = h ++ b ∧ (∀ c ∈ h, p c = true) ∧ k b = some m
  | [], h, m, hs => by
    cases hk : k [] with
    | none => simp [matchStar, hk] at hs
    | some m' =>
      simp only [matchStar, hk, Option.map_some', Option.some.injEq, Prod.mk.injEq] at hs
      obtain ⟨rfl, rfl⟩ := hs
      exact ⟨[], rfl, by simp, hk⟩
  | c :: s, h, m, hs => by
    have hstop : Option.map (fun m => (([] : List Char), m)) (k (c :: s)) = some (h, m) →
        ∃ b, c :: s = h ++ b ∧ (∀ x ∈ h, p x = true) ∧ k b = some m := by
      intro hs2
      cases hk : k (c :: s) with
      | none => rw [hk] at hs2; simp at hs2
      | some m' =>
        rw [hk] at hs2
        simp only [Option.map_some', Option.some.injEq, Prod.mk.injEq] at hs2
        obtain ⟨rfl, rfl⟩ := hs2
        exact ⟨c :: s, rfl, by simp, hk⟩
    by_cases hp : p c = true
    · cases hrec : matchStar p k s with
      | none =>
        simp only [matchStar, hp, if_true, hrec] at hs
        exact hstop hs
      | some hm =>
        obtain ⟨h', m'⟩ := hm
        simp only [matchStar, hp, if_true, hrec, Option.some.injEq, Prod.mk.injEq] at hs
        obtain ⟨rfl, rfl⟩ := hs
        obtain ⟨b, hb, hall, hk⟩ := matchStar_inv p k s h' m' hrec
        refine ⟨b, by simp [hb], ?_, hk⟩
        intro x hx
        rcases List.mem_cons.1 hx with rfl | hx
        · exact hp
        · exact hall x hx
    · simp only [matchStar, hp, Bool.false_eq_true, if_false] at hs
      exact hstop hs

theorem matchItems_star_inv (p : Char → Bool) (r : List Item) (s : List Char)
    (m : List (List Char)) (h : matchItems (Item.star p :: r) s = some m) :
    ∃ a b m', s = a ++ b ∧ (∀ c ∈ a, p c = true) ∧ matchItems r b = some m' := by
  rw [matchItems_star] at h
  cases hs : matchStar p (matchItems r) s with
  | none => rw [hs] at h; simp at h
  | some hm =>
    obtain ⟨a, m'⟩ := hm
    obtain ⟨b, hb, hall, hk⟩ := matchStar_inv p (matchItems r) s a m' hs
    exact ⟨a, b, m', hb, hall, hk⟩

theorem findFrom_inv (items : List Item) :
    ∀ (s : List Char) (m : List (List Char)), findFrom items s = some m →
      ∃ pre suf, s = pre ++ suf ∧ matchItems items suf = some m
  | [], m, h => ⟨[], [], rfl, by simpa [findFrom] using h⟩
  | c :: s, m, h => by
    cases hm : matchItems items (c :: s) with
    | some m' =>
      simp only [findFrom, hm, Option.some.injEq] at h
      subst h
      exact ⟨[], c :: s, rfl, hm⟩
    | none =>
      simp only [findFrom, hm] at h
      obtain ⟨pre, suf, hs, hsuf⟩ := findFrom_inv items s m h
      exact ⟨c :: pre, suf, by simp [hs], hsuf⟩

theorem findFrom_of_suffix (items : List Item) (suf : List Char) (m : List (List Char))
    (h : matchItems items suf = some m) :
    ∀ pre : List Char, ∃ m', findFrom items (pre ++ suf) = some m'
  | [] => ⟨m, findFrom_of_match items suf m h⟩
  | c :: pre => by
    obtain ⟨m', hm'⟩ := findFrom_of_suffix items suf m h pre
    cases hc : matchItems items (c :: (pre ++ suf)) with
    | some m2 => exact ⟨m2, by simp [findFrom, hc]⟩
    | none => exact ⟨m', by simp [findFrom, hc, hm']⟩

theorem matchItems_date_inv (s : List Char) (m : List (List Char))
    (h : matchItems unixDateRegex.items s = some m) :
    ∃ d post : List Char,
      s = ("/Date(" : String).data ++ (d ++ (("-0000)/" : String).data ++ post)) ∧
        4 ≤ d.length ∧ ∀ c ∈ d, isDigit c = true := by
  rw [unixDateRegex_items] at h
  obtain ⟨s1, m1, rfl, h1⟩ := matchItems_litItems_inv _ _ _ _ h
  obtain ⟨c0, s2, m2, rfl, hc0, h2⟩ := matchItems_one_inv _ _ _ _ h1
  obtain ⟨a, s3, m3, rfl, ha, h3⟩ := matchItems_star_inv _ _ _ _ h2
  rw [dateTailItems] at h3
  obtain ⟨x, s4, m4, rfl, hx, h4⟩ := matchItems_one_inv _ _ _ _ h3
  obtain ⟨y, s5, m5, rfl, hy, h5⟩ := matchItems_one_inv _ _ _ _ h4
  obtain ⟨z, s6, m6, rfl, hz, h6⟩ := matchItems_one_inv _ _ _ _ h5
  have h7 : matchItems (litItems ("-0000)/" : String).data ++ []) s6 = some m6 := by
    simpa [lit] using h6
  obtain ⟨post, m7, rfl, _⟩ := matchItems_litItems_inv _ _ _ _ h7
  refine ⟨c0 :: (a ++ [x, y, z]), post, by simp, by simp, ?_⟩
  intro c hc
  simp only [List.mem_cons, List.mem_append, List.mem_singleton, List.not_mem_nil,
    or_false] at hc
  rcases hc with rfl | hc | rfl | rfl | rfl
  · exact hc0
  · exact ha c hc
  · exact hx
  · exact hy
  · exact hz

theorem findFrom_date_iff (raw : String) :
    FindStringSubmatch unixDateRegex raw ≠ [] ↔ HasWrappedDate raw := by
  constructor
  · intro hne
    cases hf : findFrom unixDateRegex.items raw.data with
    | none => simp [FindStringSubmatch, hf] at hne
    | some m =>
      obtain ⟨pre, suf, hs, hm⟩ := findFrom_inv _ _ _ hf
      obtain ⟨d, post, hsuf, hlen, hdig⟩ := matchItems_date_inv suf m hm
      exact ⟨pre, d, post, by rw [hs, hsuf], hlen, hdig⟩
  · rintro ⟨pre, d, post, hraw, hlen, hdig⟩
    obtain ⟨c0, a, x, y, z, hd, _⟩ := digits_split d hlen
    subst hd
    have hm := matchItems_date c0 a x y z post (hdig c0 (by simp))
      (fun c hc => hdig c (by simp [hc])) (hdig x (by simp)) (hdig y (by simp))
      (hdig z (by simp))
    obtain ⟨m', hm'⟩ := findFrom_of_suffix _ _ _ hm pre
    have hraw2 : raw.data = pre ++ (("/Date(" : String).data ++
        (c0 :: (a ++ (x :: y :: z :: (("-0000)/" : String).data ++ post))))) := by
      rw [hraw]; simp
    rw [← hraw2] at hm'
    simp only [FindStringSubmatch, hm', submatches]
    simp

/-! ## Date normalisation and the time zone -/

/-- C2, counterexample: under a local zone one hour east of UTC the input
`/Date(1609459200000-0000)/` gives `2021-01-01T01:00:00+01:00`, which is
neither the result under UTC nor `2021-01-01T00:00:00Z`. -/
theorem formatWeirdUnixTime_zone_counterexample :
    formatWeirdUnixTime (FixedZone 3600) "/Date(1609459200000-0000)/" =
        Except.ok "2021-01-01T01:00:00+01:00" ∧
      formatWeirdUnixTime (FixedZone 3600) "/Date(1609459200000-0000)/" ≠
        formatWeirdUnixTime UTC "/Date(1609459200000-0000)/" ∧
      formatWeirdUnixTime (FixedZone 3600) "/Date(1609459200000-0000)/" ≠
        Except.ok "2021-01-01T00:00:00Z" := by
  decide

/-- C2, amended: the timestamp depends on the raw string and on the offset
that the local zone has at the instant of the date. Two zones with the same
offset there give the same result, and with offset zero the input
`/Date(1609459200000-0000)/` gives `2021-01-01T00:00:00Z`. -/
theorem formatWeirdUnixTime_zone_offset (loc1 loc2 : Location) (raw : String) (sec : Int)
    (hsec : unixSeconds raw = Except.ok sec) (hoff : loc1.offset sec = loc2.offset sec) :
    formatWeirdUnixTime loc1 raw = formatWeirdUnixTime loc2 raw ∧
      (raw = "/Date(1609459200000-0000)/" → loc1.offset sec = 0 →
        formatWeirdUnixTime loc1 raw = Except.ok "2021-01-01T00:00:00Z") := by
  refine ⟨?_, ?_⟩
  · simp only [formatWeirdUnixTime, hsec, timeUnixFormatRFC3339, hoff]
  · intro hraw h0
    subst hraw
    have hs : unixSeconds "/Date(1609459200000-0000)/" = Except.ok 1609459200 := by decide
    rw [hs] at hsec
    have hsec2 : sec = 1609459200 := by
      injection hsec with h
      exact h.symm
    subst hsec2
    simp only [formatWeirdUnixTime, hs, timeUnixFormatRFC3339, h0]
    decide

/-- Instance of the amended C2 for the zones `UTC` and `FixedZone 0`. -/
theorem formatWeirdUnixTime_zone_offset_witness :
    formatWeirdUnixTime UTC "/Date(1609459200000-0000)/" =
        formatWeirdUnixTime (FixedZone 0) "/Date(1609459200000-0000)/" ∧
      (("/Date(1609459200000-0000)/" : String) = "/Date(1609459200000-0000)/" →
        UTC.offset 1609459200 = 0 →
        formatWeirdUnixTime UTC "/Date(1609459200000-0000)/" =
          Except.ok "2021-01-01T00:00:00Z") :=
  formatWeirdUnixTime_zone_offset UTC (FixedZone 0) "/Date(1609459200000-0000)/" 1609459200
    (by decide) (by decide)

/-! ## Failure of the pattern match -/

theorem index_FindStringSubmatch (re : Regexp) (s : String) :
    (FindStringSubmatch re s = [] ∧
        index (FindStringSubmatch re s) 1 = Except.error (Failure.indexOutOfRange 1 0)) ∨
      ∃ w g, FindStringSubmatch re s = [w, g] ∧ index (FindStringSubmatch re s) 1 = Except.ok g := by
  unfold FindStringSubmatch
  cases findFrom re.items s.data with
  | none => left; exact ⟨rfl, rfl⟩
  | some m => right; exact ⟨_, _, rfl, rfl⟩

/-- C7, counterexample: on the empty string, on a date with fewer than four
digits and on a date with another offset the failure is the runtime panic of
the index expression `submatches[1]` on the empty match list. -/
theorem formatWeirdUnixTime_panic_counterexample :
    formatWeirdUnixTime UTC "" = Except.error (Failure.indexOutOfRange 1 0) ∧
      formatWeirdUnixTime UTC "/Date(123-0000)/" = Except.error (Failure.indexOutOfRange 1 0) ∧
      formatWeirdUnixTime UTC "/Date(1609459200000+0100)/" =
        Except.error (Failure.indexOutOfRange 1 0) := by
  decide

/-- C7, amended: the date pattern fails to match exactly on the texts without
a wrapped date `/Date(<digits><3 digits>-0000)/`; on these
`formatWeirdUnixTime` produces no timestamp and aborts with the
index-out-of-range panic of `submatches[1]` on the empty match list, and on
all other texts it produces a timestamp. -/
theorem formatWeirdUnixTime_no_match (loc : Location) (raw : String) :
    (FindStringSubmatch unixDateRegex raw = [] ↔ ¬ HasWrappedDate raw) ∧
      (¬ HasWrappedDate raw →
        formatWeirdUnixTime loc raw = Except.error (Failure.indexOutOfRange 1 0)) ∧
      (HasWrappedDate raw → ∃ ts, formatWeirdUnixTime loc raw = Except.ok ts) := by
  have hiff := findFrom_date_iff raw
  have hiff2 : FindStringSubmatch unixDateRegex raw = [] ↔ ¬ HasWrappedDate raw := by
    rw [← hiff]; simp
  refine ⟨hiff2, ?_, ?_⟩
  · intro hno
    have h0 := hiff2.2 hno
    rcases index_FindStringSubmatch unixDateRegex raw with ⟨_, hi⟩ | ⟨w, g, h2, _⟩
    · simp only [formatWeirdUnixTime, unixSeconds, hi]
    · rw [h2] at h0
      exact absurd h0 (by simp)
  · intro hyes
    have hne := hiff.2 hyes
    rcases index_FindStringSubmatch unixDateRegex raw with ⟨h0, _⟩ | ⟨w, g, _, hi⟩
    · exact absurd h0 hne
    · exact ⟨timeUnixFormatRFC3339 loc (ParseInt g).1, by
        simp only [formatWeirdUnixTime, unixSeconds, hi]⟩

/-- C6, counterexample: on a page without the assignments the failure of the
extraction is the out-of-range access on the empty match list. -/
theorem getVerificationToken_panic_counterexample :
    getVerificationToken "<html></html>" = Except.error (Failure.indexOutOfRange 1 0) ∧
      getVerificationToken "MSRService.FormToken = \"f\";" =
        Except.error (Failure.indexOutOfRange 1 0) := by
  decide

/-- C6, amended: when the form-token pattern or the cookie-token pattern has no
match, the extraction returns no token and aborts with the index-out-of-range
panic of the index expression on the empty match list. -/
theorem getVerificationToken_no_match (bodyString : String)
    (h : FindStringSubmatch formTokenRegex bodyString = [] ∨
      FindStringSubmatch cookieTokenRegex bodyString = []) :
    getVerificationToken bodyString = Except.error (Failure.indexOutOfRange 1 0) := by
  rcases index_FindStringSubmatch formTokenRegex bodyString with ⟨_, hf⟩ | ⟨w, g, hf2, hf⟩
  · simp only [getVerificationToken, hf]
  · rcases index_FindStringSubmatch cookieTokenRegex bodyString with ⟨_, hc⟩ | ⟨w2, g2, hc2, _⟩
    · simp only [getVerificationToken, hf, hc]
    · rcases h with h | h
      · rw [hf2] at h; exact absurd h (by simp)
      · rw [hc2] at h; exact absurd h (by simp)

/-- Instance of the amended C6 for a page without the cookie-token assignment. -/
theorem getVerificationToken_no_match_witness :
    getVerificationToken "MSRService.FormToken = \"f\";" =
      Except.error (Failure.indexOutOfRange 1 0) :=
  getVerificationToken_no_match "MSRService.FormToken = \"f\";" (Or.inr (by decide))

/-! ## Login -/

theorem containsAt_iff (sub : List Char) : ∀ s : List Char, containsAt sub s = true ↔ sub <:+: s
  | [] => by simp [containsAt, List.isPrefixOf_iff_prefix]
  | c :: s => by
    simp only [containsAt, Bool.or_eq_true, List.isPrefixOf_iff_prefix, containsAt_iff sub s,
      List.infix_cons_iff]

/-- The outcome of `login` for every outcome of the HTTP exchange: a panic
without a response; with a response the login failure exactly when the status
is 2xx and the message contains `Login False`, and a normal return in every
other case. -/
theorem login_outcome (post : String → String → Option loginAnswer) (token : verificationToken)
    (email password : String) :
    (post token.format (loginDataString email password) = none →
        login post token email password = Except.error Failure.nilDereference) ∧
      ∀ answer, post token.format (loginDataString email password) = some answer →
        (login post token email password = Except.error (Failure.fatal "Could not login!") ↔
          (200 ≤ answer.StatusCode ∧ answer.StatusCode ≤ 299) ∧
            ("Login False" : String).data <:+: answer.Message.data) ∧
        (login post token email password = Except.ok () ↔
          ¬ ((200 ≤ answer.StatusCode ∧ answer.StatusCode ≤ 299) ∧
            ("Login False" : String).data <:+: answer.Message.data)) := by
  refine ⟨fun hnone => by simp [login, ReceiveSuccess, hnone], ?_⟩
  intro answer hsome
  have hempty : containsAt ("Login False" : String).data ("" : String).data = false := by decide
  by_cases hstatus : 200 ≤ answer.StatusCode ∧ answer.StatusCode ≤ 299
  · have h := containsAt_iff ("Login False" : String).data answer.Message.data
    by_cases hc : ("Login False" : String).data <:+: answer.Message.data
    · have hb := h.2 hc
      simp [login, ReceiveSuccess, hsome, hstatus, Contains, hb, hc]
    · have hb : containsAt ("Login False" : String).data answer.Message.data = false := by
        cases hx : containsAt ("Login False" : String).data answer.Message.data
        · rfl
        · exact absurd (h.1 hx) hc
      simp [login, ReceiveSuccess, hsome, hstatus, Contains, hb, hc]
  · simp [login, ReceiveSuccess, hsome, hstatus, Contains, hempty]

/-- C10, failing input: the login endpoint answers with status 500 and the
message `Login False`. The message contains the failure marker, yet `login`
returns normally; the same message with status 200 aborts the run with the
login failure. -/
theorem login_http500_returns :
    ("Login False" : String).data <:+: ("Login False" : String).data ∧
      login (fun _ _ => some { StatusCode := 500, Message := "Login False" })
          { FormToken := "f", CookieToken := "c" } "user@example.com" "secret" =
        Except.ok () ∧
      login (fun _ _ => some { StatusCode := 200, Message := "Login False" })
          { FormToken := "f", CookieToken := "c" } "user@example.com" "secret" =
        Except.error (Failure.fatal "Could not login!") := by
  decide

/-! ## The transaction query -/

/-- C3, counterexample: two cards whose separators differ and whose query
strings for page 1 and page size 150000 are equal. -/
theorem buildTransactionSearchDataString_collision :
    (collisionCardA.PropertyValueStringSeparator ≠ collisionCardB.PropertyValueStringSeparator ∨
        collisionCardA.DataStringSeparator ≠ collisionCardB.DataStringSeparator) ∧
      buildTransactionSearchDataString collisionCardA 1 150000 =
        buildTransactionSearchDataString collisionCardB 1 150000 := by
  decide

/-- C3, amended: two cards whose property separators have the same length and
whose separators differ get different query strings, for every page and page
size. -/
theorem buildTransactionSearchDataString_injective (c1 c2 : card) (page pageSize : Int)
    (hlen : c1.PropertyValueStringSeparator.length = c2.PropertyValueStringSeparator.length)
    (hdiff : c1.PropertyValueStringSeparator ≠ c2.PropertyValueStringSeparator ∨
      c1.DataStringSeparator ≠ c2.DataStringSeparator) :
    buildTransactionSearchDataString c1 page pageSize ≠
      buildTransactionSearchDataString c2 page pageSize := by
  intro h
  have hd := congrArg String.data h
  simp only [buildTransactionSearchDataString, String.data_append, List.append_assoc] at hd
  have h1 := List.append_cancel_left hd
  have hlen2 : c1.PropertyValueStringSeparator.data.length =
      c2.PropertyValueStringSeparator.data.length := hlen
  obtain ⟨hpv, hrest⟩ := List.append_inj h1 hlen2
  have h2 := List.append_cancel_left hrest
  rw [hpv] at h2
  have hds := List.append_cancel_right h2
  rcases hdiff with hp | hs
  · exact hp (String.ext hpv)
  · exact hs (String.ext hds)

/-- Instance of the amended C3 for two cards whose property separators differ in the last character. -/
theorem buildTransactionSearchDataString_injective_witness :
    buildTransactionSearchDataString
        { collisionCardA with DataStringSeparator := "L1nt0r",
                              PropertyValueStringSeparator := "r0tn1L" } 1 150000 ≠
      buildTransactionSearchDataString
        { collisionCardA with DataStringSeparator := "L1nt0r",
                              PropertyValueStringSeparator := "r0tn1X" } 1 150000 :=
  buildTransactionSearchDataString_injective _ _ 1 150000 (by decide) (Or.inl (by decide))

/-! ## The login blob -/

theorem pairSeparator_data :
    ("L1nt0rPasswordr0tn1L" : String).data =
      ['L', '1', 'n', 't', '0', 'r', 'P', 'a', 's', 's', 'w', 'o', 'r', 'd', 'r', '0', 't', 'n',
        '1', 'L'] := rfl

/-- A text in front of the password separator that makes the separator start
again contains `L1nt0r` after any text it is appended to. -/
theorem separator_overlap (e x u v : List Char)
    (h : ("L1nt0rPasswordr0tn1L" : String).data ++ u =
      x ++ (("L1nt0rPasswordr0tn1L" : String).data ++ v))
    (hx : ¬ ("L1nt0r" : String).data <:+: e ++ x) : x = [] := by
  rw [pairSeparator_data] at h
  rcases x with _ | ⟨c1, _ | ⟨c2, _ | ⟨c3, _ | ⟨c4, _ | ⟨c5, _ | ⟨c6, x⟩⟩⟩⟩⟩⟩
  · rfl
  · simp at h
  · simp at h
  · simp at h
  · simp at h
  · simp at h
  · simp only [List.cons_append, List.cons.injEq] at h
    obtain ⟨h1, h2, h3, h4, h5, h6, _⟩ := h
    subst h1 h2 h3 h4 h5 h6
    exact absurd ⟨e, x, by simp⟩ hx

theorem loginBlob_cancel (e1 p1 e2 p2 : List Char)
    (h1 : ¬ ("L1nt0r" : String).data <:+: e1) (h2 : ¬ ("L1nt0r" : String).data <:+: e2)
    (h : e1 ++ (("L1nt0rPasswordr0tn1L" : String).data ++ p1) =
      e2 ++ (("L1nt0rPasswordr0tn1L" : String).data ++ p2)) : e1 = e2 ∧ p1 = p2 := by
  rcases List.append_eq_append_iff.1 h with ⟨a, ha, hb⟩ | ⟨a, ha, hb⟩
  · have hnil := separator_overlap e1 a p1 p2 hb (by rw [← ha]; exact h2)
    subst hnil
    simp only [List.append_nil, List.nil_append] at ha hb
    exact ⟨ha.symm, List.append_cancel_left hb⟩
  · have hnil := separator_overlap e2 a p2 p1 hb (by rw [← ha]; exact h1)
    subst hnil
    simp only [List.append_nil, List.nil_append] at ha hb
    exact ⟨ha, (List.append_cancel_left hb).symm⟩

/-- C4: the login blob determines the email and the password, for emails that
do not contain the separator `L1nt0r` (no condition on the passwords or on
the separator `r0tn1L` is needed). -/
theorem loginDataString_injective (email1 password1 email2 password2 : String)
    (h1 : ¬ ("L1nt0r" : String).data <:+: email1.data)
    (h2 : ¬ ("L1nt0r" : String).data <:+: email2.data)
    (h : loginDataString email1 password1 = loginDataString email2 password2) :
    email1 = email2 ∧ password1 = password2 := by
  have hd := congrArg String.data h
  simp only [loginDataString, String.data_append, List.append_assoc] at hd
  have hc := List.append_cancel_left hd
  rw [← List.append_assoc, ← List.append_assoc, ← List.append_assoc email2.data,
    ← List.append_assoc (email2.data ++ _)] at hc
  have hc2 := List.append_cancel_right hc
  rw [List.append_assoc, List.append_assoc] at hc2
  obtain ⟨he, hp⟩ := loginBlob_cancel _ _ _ _ h1 h2 hc2
  exact ⟨String.ext he, String.ext hp⟩

/-- Instance of C4 for one pair of email and password. -/
theorem loginDataString_injective_witness :
    ("user@example.com" : String) = "user@example.com" ∧ ("secret" : String) = "secret" :=
  loginDataString_injective "user@example.com" "secret" "user@example.com" "secret"
    (by decide) (by decide) rfl

/-! ## The CSV rows -/

theorem writeCsvHeader_eq (writer : Writer) : writeCsvHeader writer = writer ++ [headerRow] := by
  have h : writeCsvHeader [] = [headerRow] := by decide
  simp only [writeCsvHeader, List.nil_append] at h ⊢
  rw [List.cons.inj h |>.1]

theorem writeTransaction_ok (loc : Location) (FormatFloat : float64 → String) (writer : Writer)
    (c : card) (t : transaction) (dateTime : String)
    (h : formatWeirdUnixTime loc t.DateTimeUnix = Except.ok dateTime) :
    writeTransaction loc FormatFloat writer c t =
      Except.ok (writer ++ [dataRow FormatFloat c t dateTime]) := by
  simp only [writeTransaction, h]
  rfl

/-- C8: the header row is the 14 names of the specification, without the two
separator fields, and for every card and transaction `writeTransaction` builds
a record exactly when the date is normalised: the record has 14 fields, the
card number first and at each column the rendering of the field that the
header names there, the normalised timestamp in column `DateTimeUnix`. -/
theorem header_and_record_aligned (loc : Location) (FormatFloat : float64 → String)
    (writer : Writer) (c : card) (t : transaction) :
    writeCsvHeader writer = writer ++
        [["CardNumber", "Id", "Category", "MoneyAmount", "MoneyBalance", "StarAmount",
          "StarBalance", "DateTimeUnix", "Description", "Points", "LocationId", "LocationName",
          "CheckNumber", "Currency"]] ∧
      writeTransaction loc FormatFloat writer c t =
        (match formatWeirdUnixTime loc t.DateTimeUnix with
          | Except.ok dateTime => Except.ok (writer ++
              [[c.Number, Itoa t.Id, t.Category, FormatFloat t.MoneyAmount,
                FormatFloat t.MoneyBalance, Itoa t.StarAmount, Itoa t.StarBalance, dateTime,
                t.Description, Itoa t.Points, Itoa t.LocationId, t.LocationName, t.CheckNumber,
                t.Currency]])
          | Except.error e => Except.error e) ∧
      (∀ dateTime : String,
        [c.Number, Itoa t.Id, t.Category, FormatFloat t.MoneyAmount,
            FormatFloat t.MoneyBalance, Itoa t.StarAmount, Itoa t.StarBalance, dateTime,
            t.Description, Itoa t.Points, Itoa t.LocationId, t.LocationName, t.CheckNumber,
            t.Currency] = headerRow.map (renderColumn FormatFloat c t dateTime) ∧
          (headerRow.map (renderColumn FormatFloat c t dateTime)).length = 14) ∧
      headerRow.length = 14 ∧
      "DataStringSeparator" ∉ headerRow ∧ "PropertyValueStringSeparator" ∉ headerRow := by
  refine ⟨writeCsvHeader_eq writer, ?_, fun _ => ⟨rfl, rfl⟩, rfl, by decide, by decide⟩
  cases h : formatWeirdUnixTime loc t.DateTimeUnix with
  | ok dateTime =>
    rw [writeTransaction_ok loc FormatFloat writer c t dateTime h]
    rfl
  | error e => simp only [writeTransaction, h]

/-! ## The export loop -/

theorem writeTransactions_ok (loc : Location) (FormatFloat : float64 → String) (c : card) :
    ∀ (ts : List transaction) (writer : Writer),
      (∀ t ∈ ts, ∃ dateTime, formatWeirdUnixTime loc t.DateTimeUnix = Except.ok dateTime) →
      ∃ rows, writeTransactions loc FormatFloat c ts writer = Except.ok (writer ++ rows) ∧
        List.Forall₂ (IsRowOf loc FormatFloat) (ts.map (fun t => (c, t))) rows
  | [], writer, _ => ⟨[], by simp [writeTransactions], List.Forall₂.nil⟩
  | t :: ts, writer, h => by
    obtain ⟨dateTime, hd⟩ := h t (by simp)
    obtain ⟨rows, hrows, hall⟩ := writeTransactions_ok loc FormatFloat c ts
      (writer ++ [dataRow FormatFloat c t dateTime]) (fun x hx => h x (by simp [hx]))
    refine ⟨dataRow FormatFloat c t dateTime :: rows, ?_, ?_⟩
    · simp only [writeTransactions, writeTransaction_ok loc FormatFloat writer c t dateTime hd,
        hrows, List.append_assoc, List.singleton_append]
    · exact List.Forall₂.cons ⟨dateTime, hd, rfl⟩ hall

theorem writeCards_ok (loc : Location) (FormatFloat : float64 → String)
    (getAllTransactionsForCard : card → transactionDetailResponse) :
    ∀ (cards : List card) (writer : Writer),
      (∀ c ∈ cards, ∀ t ∈ (getAllTransactionsForCard c).Transactions,
        ∃ dateTime, formatWeirdUnixTime loc t.DateTimeUnix = Except.ok dateTime) →
      ∃ rows, writeCards loc FormatFloat getAllTransactionsForCard cards writer =
          Except.ok (writer ++ rows) ∧
        List.Forall₂ (IsRowOf loc FormatFloat)
          (cardTransactions getAllTransactionsForCard cards) rows
  | [], writer, _ => ⟨[], by simp [writeCards], by simp [cardTransactions]⟩
  | c :: cards, writer, h => by
    obtain ⟨rows1, h1, hall1⟩ := writeTransactions_ok loc FormatFloat c
      (getAllTransactionsForCard c).Transactions writer (h c (by simp))
    obtain ⟨rows2, h2, hall2⟩ := writeCards_ok loc FormatFloat getAllTransactionsForCard cards
      (writer ++ rows1) (fun x hx => h x (by simp [hx]))
    refine ⟨rows1 ++ rows2, ?_, ?_⟩
    · simp only [writeCards, h1, h2, List.append_assoc]
    · simp only [cardTransactions, List.flatMap_cons]
      exact List.rel_append hall1 hall2

theorem cardTransactions_length (getAllTransactionsForCard : card → transactionDetailResponse) :
    ∀ cards : List card,
      (cardTransactions getAllTransactionsForCard cards).length =
        (cards.map (fun c => (getAllTransactionsForCard c).Transactions.length)).sum
  | [] => rfl
  | c :: cards => by
    have ih := cardTransactions_length getAllTransactionsForCard cards
    simp only [cardTransactions] at ih
    simp [cardTransactions, ih]

/-- C9: when all dates are well-formed, the export writes the header row and
then one data row per transaction, grouped by card in card order and in
transaction order within a card, each row that of its own card and starting
with its number; the number of data rows is the total number of transactions,
and cards without transactions leave the header row alone. -/
theorem mainExport_rows (loc : Location) (FormatFloat : float64 → String)
    (cardsResponse : loadAllCardsDataResponse)
    (getAllTransactionsForCard : card → transactionDetailResponse)
    (h : ∀ c ∈ cardsResponse.Cards, ∀ t ∈ (getAllTransactionsForCard c).Transactions,
      ∃ dateTime, formatWeirdUnixTime loc t.DateTimeUnix = Except.ok dateTime) :
    ∃ rows, mainExport loc FormatFloat cardsResponse getAllTransactionsForCard =
          Except.ok (headerRow :: rows) ∧
        List.Forall₂ (fun ct row => IsRowOf loc FormatFloat ct row ∧ row.head? = some ct.1.Number)
          (cardTransactions getAllTransactionsForCard cardsResponse.Cards) rows ∧
        rows.length =
          (cardsResponse.Cards.map
            (fun c => (getAllTransactionsForCard c).Transactions.length)).sum ∧
        ((∀ c ∈ cardsResponse.Cards, (getAllTransactionsForCard c).Transactions = []) →
          mainExport loc FormatFloat cardsResponse getAllTransactionsForCard =
            Except.ok [headerRow]) := by
  obtain ⟨rows, hrows, hall⟩ := writeCards_ok loc FormatFloat getAllTransactionsForCard
    cardsResponse.Cards (writeCsvHeader []) h
  have hlen : rows.length =
      (cardsResponse.Cards.map (fun c => (getAllTransactionsForCard c).Transactions.length)).sum := by
    rw [← cardTransactions_length, hall.length_eq]
  have hmain : mainExport loc FormatFloat cardsResponse getAllTransactionsForCard =
      Except.ok (headerRow :: rows) := by
    rw [writeCsvHeader_eq] at hrows
    simp only [mainExport, writeCsvHeader_eq, List.nil_append] at hrows ⊢
    rw [hrows]
    rfl
  refine ⟨rows, hmain, ?_, hlen, ?_⟩
  · refine hall.imp ?_
    intro ct row hrow
    refine ⟨hrow, ?_⟩
    obtain ⟨dateTime, _, rfl⟩ := hrow
    rfl
  · intro hempty
    have hsum : (cardsResponse.Cards.map
        (fun c => (getAllTransactionsForCard c).Transactions.length)).sum = 0 := by
      apply List.sum_eq_zero
      intro n hn
      obtain ⟨c, hc, rfl⟩ := List.mem_map.1 hn
      rw [hempty c hc]
      rfl
    rw [hsum] at hlen
    rw [hmain, List.length_eq_zero.1 hlen]

/-- Instance of C9 for two cards, the first with one transaction and the second with none. -/
theorem mainExport_rows_witness :
    ∃ rows, mainExport UTC (fun _ => "0") ⟨[collisionCardA, collisionCardB]⟩
          (fun c => if c = collisionCardA then ⟨[sampleTransaction]⟩ else ⟨[]⟩) =
          Except.ok (headerRow :: rows) ∧
        List.Forall₂ (fun ct row => IsRowOf UTC (fun _ => "0") ct row ∧
            row.head? = some ct.1.Number)
          (cardTransactions (fun c => if c = collisionCardA then ⟨[sampleTransaction]⟩ else ⟨[]⟩)
            [collisionCardA, collisionCardB]) rows ∧
        rows.length =
          (([collisionCardA, collisionCardB] : List card).map
            (fun c => (if c = collisionCardA then (⟨[sampleTransaction]⟩ : transactionDetailResponse)
              else ⟨[]⟩).Transactions.length)).sum ∧
        ((∀ c ∈ ([collisionCardA, collisionCardB] : List card),
            (if c = collisionCardA then (⟨[sampleTransaction]⟩ : transactionDetailResponse)
              else ⟨[]⟩).Transactions = []) →
          mainExport UTC (fun _ => "0") ⟨[collisionCardA, collisionCardB]⟩
            (fun c => if c = collisionCardA then ⟨[sampleTransaction]⟩ else ⟨[]⟩) =
            Except.ok [headerRow]) :=
  mainExport_rows UTC (fun _ => "0") ⟨[collisionCardA, collisionCardB]⟩
    (fun c => if c = collisionCardA then ⟨[sampleTransaction]⟩ else ⟨[]⟩) (by
      intro c hc t ht
      simp only [List.mem_cons, List.mem_singleton, List.not_mem_nil, or_false] at hc
      rcases hc with rfl | rfl
      · simp only [if_true, List.mem_singleton] at ht
        subst ht
        exact ⟨"2021-01-01T00:00:00Z", by decide⟩
      · have hne : collisionCardB ≠ collisionCardA := by decide
        simp only [hne, if_false, List.not_mem_nil] at ht)

/-! ## The token patterns -/

theorem formTokenRegex_items :
    formTokenRegex.items = tokenItems ("MSRService.FormToken" : String).data := by
  simp [Regexp.items, formTokenRegex, tokenItems, lit, litItems]

theorem cookieTokenRegex_items :
    cookieTokenRegex.items = tokenItems ("MSRService.CookieToken" : String).data := by
  simp [Regexp.items, cookieTokenRegex, tokenItems, lit, litItems]

theorem matchItems_opt_take (p : Char → Bool) (r : List Item) (c : Char) (t : List Char)
    (m : List (List Char)) (hp : p c = true) (h : matchItems r t = some m) :
    matchItems (Item.opt p :: r) (c :: t) = some ([c] :: m) := by
  simp [matchItems, hp, h]

theorem starts_takeWhile (p : Char → Bool) :
    ∀ u l : List Char, (∀ c ∈ u, p c = true) → u <+: l → u <+: l.takeWhile p
  | [], _, _, _ => List.nil_prefix
  | c :: u, [], _, h => by simp at h
  | c :: u, d :: l, hu, h => by
    obtain ⟨rfl, h2⟩ := List.cons_prefix_cons.1 h
    have hc : p c = true := hu c (by simp)
    simp only [List.takeWhile_cons, hc, if_true]
    exact List.cons_prefix_cons.2
      ⟨rfl, starts_takeWhile p u l (fun x hx => hu x (by simp [hx])) h2⟩

/-- After the closing `";` of an assignment no longer run of the line ends in
front of another `";`. -/
theorem tokenTail_short (post x y : List Char)
    (hpost : ¬ ['"', ';'] <:+: post.takeWhile isDot)
    (hxy : '"' :: ';' :: post = x ++ y) (hx : x ≠ []) (hdot : ∀ c ∈ x, isDot c = true) :
    matchItems (litItems ['"', ';']) y = none := by
  cases hm : matchItems (litItems ['"', ';']) y with
  | none => rfl
  | some m =>
    exfalso
    have hm2 : matchItems (litItems ['"', ';'] ++ []) y = some m := by simpa using hm
    obtain ⟨y2, hy2⟩ := matchItems_litItems_starts [] _ _ _ hm2
    subst hy2
    rcases x with _ | ⟨c1, _ | ⟨c2, x⟩⟩
    · exact hx rfl
    · simp at hxy
    · simp only [List.cons_append, List.cons.injEq] at hxy
      obtain ⟨_, _, hp⟩ := hxy
      apply hpost
      have hpre : x ++ ['"', ';'] <+: post := ⟨y2, by simp [hp]⟩
      have hall : ∀ c ∈ x ++ ['"', ';'], isDot c = true := by
        intro c hc
        rcases List.mem_append.1 hc with hc | hc
        · exact hdot c (by simp [hc])
        · simp only [List.mem_cons, List.mem_singleton, List.not_mem_nil, or_false] at hc
          rcases hc with rfl | rfl <;> decide
      exact (List.infix_append' x ['"', ';'] []).trans
        (by simpa using (starts_takeWhile isDot _ _ hall hpre).isInfix)

/-- The token pattern at the start of an assignment `name = "f";`: the group
is `f` when `f` has no line break and no `";` follows on the line. -/
theorem matchItems_token (name f post : List Char) (hf : ∀ c ∈ f, isDot c = true)
    (hpost : ¬ ['"', ';'] <:+: post.takeWhile isDot) :
    matchItems (tokenItems name) (name ++ (' ' :: '=' :: ' ' :: '"' :: (f ++ '"' :: ';' :: post))) =
      some (name.map (fun c => [c]) ++ [[' '], ['='], [' '], ['"'], f, ['"'], [';']]) := by
  have hk : matchItems (litItems ['"', ';']) ('"' :: ';' :: post) = some [['"'], [';']] := by
    have h := matchItems_litItems [] post ['"', ';']
    simpa using h
  have hstar := matchStar_greedy isDot (matchItems (litItems ['"', ';'])) _ _ hk
    (fun x y hxy hx hdot => tokenTail_short post x y hpost hxy hx hdot) f hf
  have h5 : matchItems (Item.star isDot :: litItems ['"', ';']) (f ++ '"' :: ';' :: post) =
      some [f, ['"'], [';']] := by
    rw [matchItems_star, hstar]; rfl
  have h4 : matchItems (Item.one (fun x => x == '"') :: Item.star isDot :: litItems ['"', ';'])
      ('"' :: (f ++ '"' :: ';' :: post)) = some [['"'], f, ['"'], [';']] := by
    rw [matchItems_one _ _ _ _ (by decide), h5]; rfl
  have h3 := matchItems_opt_take isSpace _ ' ' _ _ (by decide) h4
  have h2 : matchItems (Item.one (fun x => x == '=') :: Item.opt isSpace ::
      Item.one (fun x => x == '"') :: Item.star isDot :: litItems ['"', ';'])
      ('=' :: ' ' :: '"' :: (f ++ '"' :: ';' :: post)) =
      some [['='], [' '], ['"'], f, ['"'], [';']] := by
    rw [matchItems_one _ _ _ _ (by decide), h3]; rfl
  have h1 := matchItems_opt_take isSpace _ ' ' _ _ (by decide) h2
  rw [tokenItems, matchItems_litItems, h1]
  rfl

theorem start_no_border (c : Char) (l s rest : List Char) (hc : c ∉ l) (hs : s ≠ [])
    (h : (c :: l) <+: s ++ ((c :: l) ++ rest)) : (c :: l) <+: s := by
  obtain ⟨t, ht⟩ := h
  rcases List.append_eq_append_iff.1 ht with ⟨a, ha, _⟩ | ⟨a, ha, hb⟩
  · exact ⟨a, ha.symm⟩
  · rcases a with _ | ⟨d, a⟩
    · simp only [List.append_nil] at ha
      rw [ha]
    · exfalso
      rcases s with _ | ⟨e, s⟩
      · exact hs rfl
      · simp only [List.cons_append, List.cons.injEq] at ha hb
        obtain ⟨_, hl⟩ := ha
        obtain ⟨hd, _⟩ := hb
        apply hc
        rw [hl, hd]
        simp

theorem findFrom_skip (items : List Item) (rest : List Char) :
    ∀ pre : List Char,
      (∀ s1 s2, pre = s1 ++ s2 → s2 ≠ [] → matchItems items (s2 ++ rest) = none) →
      findFrom items (pre ++ rest) = findFrom items rest
  | [], _ => rfl
  | c :: pre, h => by
    have h0 := h [] (c :: pre) rfl (by simp)
    have ih := findFrom_skip items rest pre (fun s1 s2 hs hne => h (c :: s1) s2 (by simp [hs]) hne)
    simp only [List.cons_append] at h0 ⊢
    simp only [findFrom, h0, ih]

/-- Leftmost match of a token pattern in a text whose first occurrence of the
name is the assignment. -/
theorem findFrom_token (c0 : Char) (l pre f post : List Char) (hc0 : c0 ∉ l)
    (hpre : ¬ (c0 :: l) <:+: pre) (hf : ∀ c ∈ f, isDot c = true)
    (hpost : ¬ ['"', ';'] <:+: post.takeWhile isDot) :
    findFrom (tokenItems (c0 :: l))
        (pre ++ ((c0 :: l) ++ (' ' :: '=' :: ' ' :: '"' :: (f ++ '"' :: ';' :: post)))) =
      some ((c0 :: l).map (fun c => [c]) ++ [[' '], ['='], [' '], ['"'], f, ['"'], [';']]) := by
  rw [findFrom_skip]
  · exact findFrom_of_match _ _ _ (matchItems_token (c0 :: l) f post hf hpost)
  · intro s1 s2 hs hne
    cases hm : matchItems (tokenItems (c0 :: l))
        (s2 ++ ((c0 :: l) ++ (' ' :: '=' :: ' ' :: '"' :: (f ++ '"' :: ';' :: post)))) with
    | none => rfl
    | some m =>
      exfalso
      have hp := matchItems_litItems_starts _ _ _ _ hm
      have hp2 := start_no_border c0 l s2 _ hc0 hne hp
      apply hpre
      rw [hs]
      exact hp2.isInfix.trans (List.infix_append' s1 s2 [] |> fun h => by simpa using h)

theorem formName_data :
    ("MSRService.FormToken" : String).data = 'M' :: ("SRService.FormToken" : String).data := rfl

theorem cookieName_data :
    ("MSRService.CookieToken" : String).data = 'M' :: ("SRService.CookieToken" : String).data := rfl

theorem formAssign_data :
    ("MSRService.FormToken = \"" : String).data =
      'M' :: ("SRService.FormToken" : String).data ++ [' ', '=', ' ', '"'] := rfl

theorem cookieAssign_data :
    ("MSRService.CookieToken = \"" : String).data =
      'M' :: ("SRService.CookieToken" : String).data ++ [' ', '=', ' ', '"'] := rfl

theorem close_data : ("\";" : String).data = ['"', ';'] := rfl

theorem index_formToken (pre f post : String)
    (hpre : ¬ ("MSRService.FormToken" : String).data <:+: pre.data)
    (hf : ∀ c ∈ f.data, isDot c = true)
    (hpost : ¬ ("\";" : String).data <:+: post.data.takeWhile isDot) :
    index (FindStringSubmatch formTokenRegex
      (pre ++ "MSRService.FormToken = \"" ++ f ++ "\";" ++ post)) 1 = Except.ok f := by
  rw [formName_data] at hpre
  rw [close_data] at hpost
  have hfind := findFrom_token 'M' ("SRService.FormToken" : String).data pre.data f.data
    post.data (by decide) hpre hf hpost
  have hdata : (pre ++ "MSRService.FormToken = \"" ++ f ++ "\";" ++ post).data =
      pre.data ++ (('M' :: ("SRService.FormToken" : String).data) ++
        (' ' :: '=' :: ' ' :: '"' :: (f.data ++ '"' :: ';' :: post.data))) := by
    simp only [String.data_append, formAssign_data, close_data]
    simp
  simp only [FindStringSubmatch, formTokenRegex_items, hdata, formName_data, hfind]
  simp [submatches, index, formTokenRegex, lit, litItems]

theorem index_cookieToken (pre f post : String)
    (hpre : ¬ ("MSRService.CookieToken" : String).data <:+: pre.data)
    (hf : ∀ c ∈ f.data, isDot c = true)
    (hpost : ¬ ("\";" : String).data <:+: post.data.takeWhile isDot) :
    index (FindStringSubmatch cookieTokenRegex
      (pre ++ "MSRService.CookieToken = \"" ++ f ++ "\";" ++ post)) 1 = Except.ok f := by
  rw [cookieName_data] at hpre
  rw [close_data] at hpost
  have hfind := findFrom_token 'M' ("SRService.CookieToken" : String).data pre.data f.data
    post.data (by decide) hpre hf hpost
  have hdata : (pre ++ "MSRService.CookieToken = \"" ++ f ++ "\";" ++ post).data =
      pre.data ++ (('M' :: ("SRService.CookieToken" : String).data) ++
        (' ' :: '=' :: ' ' :: '"' :: (f.data ++ '"' :: ';' :: post.data))) := by
    simp only [String.data_append, cookieAssign_data, close_data]
    simp
  simp only [FindStringSubmatch, cookieTokenRegex_items, hdata, cookieName_data, hfind]
  simp [submatches, index, cookieTokenRegex, lit, litItems]

/-- C5, counterexample: with both assignments on one line the form token
extracted runs to the last `";` of the line, not to the end of `f`; and with
an earlier occurrence of the assignment in the preceding text the value of the
earlier one is extracted. -/
theorem getVerificationToken_greedy_counterexample :
    getVerificationToken
        ("<script>" ++ "MSRService.FormToken = \"" ++ "f" ++ "\";" ++ " " ++
          "MSRService.CookieToken = \"" ++ "c" ++ "\";" ++ "</script>") =
        Except.ok { FormToken := "f\"; MSRService.CookieToken = \"c", CookieToken := "c" } ∧
      getVerificationToken
        ("// MSRService.FormToken = \"old\";\n" ++ "MSRService.FormToken = \"" ++ "f" ++ "\";" ++
          "\n" ++ "MSRService.CookieToken = \"" ++ "c" ++ "\";" ++ "\n") =
        Except.ok { FormToken := "old", CookieToken := "c" } := by
  decide

/-- C5, amended: for a page text that contains the two assignments, each of
them the first occurrence of its variable name in the text, with values free of
line breaks and no further `";` between the assignment and the end of its line,
the extraction returns exactly the two values. -/
theorem getVerificationToken_extracts (bodyString pre1 f post1 pre2 c post2 : String)
    (hbody1 : bodyString = pre1 ++ "MSRService.FormToken = \"" ++ f ++ "\";" ++ post1)
    (hbody2 : bodyString = pre2 ++ "MSRService.CookieToken = \"" ++ c ++ "\";" ++ post2)
    (hf : ∀ ch ∈ f.data, isDot ch = true) (hc : ∀ ch ∈ c.data, isDot ch = true)
    (hpre1 : ¬ ("MSRService.FormToken" : String).data <:+: pre1.data)
    (hpre2 : ¬ ("MSRService.CookieToken" : String).data <:+: pre2.data)
    (hpost1 : ¬ ("\";" : String).data <:+: post1.data.takeWhile isDot)
    (hpost2 : ¬ ("\";" : String).data <:+: post2.data.takeWhile isDot) :
    getVerificationToken bodyString = Except.ok { FormToken := f, CookieToken := c } := by
  have h1 := index_formToken pre1 f post1 hpre1 hf hpost1
  have h2 := index_cookieToken pre2 c post2 hpre2 hc hpost2
  rw [← hbody1] at h1
  rw [← hbody2] at h2
  simp only [getVerificationToken, h1, h2]

/-- Instance of the amended C5 for a page with one assignment per line. -/
theorem getVerificationToken_extracts_witness :
    getVerificationToken
        "<script>\nMSRService.FormToken = \"abc\";\nMSRService.CookieToken = \"xyz\";\n</script>" =
      Except.ok { FormToken := "abc", CookieToken := "xyz" } :=
  getVerificationToken_extracts
    "<script>\nMSRService.FormToken = \"abc\";\nMSRService.CookieToken = \"xyz\";\n</script>"
    "<script>\n" "abc" "\nMSRService.CookieToken = \"xyz\";\n</script>"
    "<script>\nMSRService.FormToken = \"abc\";\n" "xyz" "\n</script>"
    (by decide) (by decide) (by decide) (by decide) (by decide) (by decide) (by decide)
    (by decide)

end StarbucksExport
